import Mathlib

/-!
Verification of the Canvas course downloader (`src/app/downloader.py`)
against its natural-language specification.

The Python source is shallowly embedded: pure helpers become Lean
functions on `String`/`List Char`; the filesystem becomes an explicit
`Disk` value; HTTP and the Canvas API become caller-supplied oracle
functions; the course walker threads its mutable state explicitly and
records its observable behaviour (log lines, progress callbacks,
successful downloads) as an event trace.
-/

namespace CanvasDL

/-! ### NameSanitizer: `safe_name` (downloader.py lines 62-67)

`safe_name` is
```
s = re.sub(r'[\\/*?:"<>|]+', "_", name)   -- each maximal forbidden run -> "_"
s = re.sub(r"\s+", " ", s).strip()        -- each maximal whitespace run -> " ", then strip
return s[:maxlen]
```
with `if not name: return "untitled"` up front.
-/

/-- The character class of `re.sub(r'[\\/*?:"<>|]+', "_", ...)`. -/
def forbiddenChar (c : Char) : Bool :=
  c = '\\' || c = '/' || c = '*' || c = '?' || c = ':' || c = '"' || c = '<' || c = '>' || c = '|'

/-- Python's `\s` class (ASCII part; the inputs we reason about are ASCII). -/
def pySpace (c : Char) : Bool :=
  c = ' ' || c = '\t' || c = '\n' || c = '\r' || c = '\x0b' || c = '\x0c'

/-- Replace each maximal run of characters satisfying `p` by the single
character `r`, as `re.sub(r'[...]+', r, s)` does.  The `inRun` flag says
whether the previous character was part of a run (so the replacement
character has already been emitted). -/
def collapseGo (p : Char → Bool) (r : Char) : Bool → List Char → List Char
  | _, [] => []
  | inRun, c :: cs =>
    if p c then
      if inRun then collapseGo p r true cs
      else r :: collapseGo p r true cs
    else c :: collapseGo p r false cs

/-- `re.sub` over a whole string: every maximal `p`-run becomes one `r`. -/
def collapseRuns (p : Char → Bool) (r : Char) (l : List Char) : List Char :=
  collapseGo p r false l

/-- Python `str.strip()` on a character list (ASCII whitespace). -/
def pyStripList (l : List Char) : List Char :=
  ((l.dropWhile pySpace).reverse.dropWhile pySpace).reverse

/-- Python `str.strip()` on a `String`. -/
def pyStripStr (s : String) : String :=
  ⟨pyStripList s.data⟩

/-- `safe_name` from downloader.py: empty input gives `"untitled"`; otherwise
forbidden-character runs become `_`, whitespace runs become a single space,
the result is stripped and then truncated to `maxlen` characters. -/
def safe_name (name : String) (maxlen : Nat := 120) : String :=
  if name = "" then "untitled"
  else ⟨(pyStripList (collapseRuns pySpace ' ' (collapseRuns forbiddenChar '_' name.data))).take maxlen⟩

/-- No two adjacent characters both satisfy `p` (the shape left behind after
collapsing every `p`-run to a single character). -/
def noTwo (p : Char → Bool) (a b : Char) : Prop := ¬(p a = true ∧ p b = true)

instance (p : Char → Bool) (a b : Char) : Decidable (noTwo p a b) :=
  inferInstanceAs (Decidable (¬(p a = true ∧ p b = true)))

theorem collapseGo_cons_pos_true {p : Char → Bool} {r a : Char} (l : List Char)
    (ha : p a = true) : collapseGo p r true (a :: l) = collapseGo p r true l := by
  simp [collapseGo, ha]

theorem collapseGo_cons_pos_false {p : Char → Bool} {r a : Char} (l : List Char)
    (ha : p a = true) : collapseGo p r false (a :: l) = r :: collapseGo p r true l := by
  simp [collapseGo, ha]

theorem collapseGo_cons_neg {p : Char → Bool} {r a : Char} (b : Bool) (l : List Char)
    (ha : p a = false) : collapseGo p r b (a :: l) = a :: collapseGo p r false l := by
  simp [collapseGo, ha]

theorem mem_collapseGo {p : Char → Bool} {r : Char} {c : Char} (l : List Char) (b : Bool)
    (h : c ∈ collapseGo p r b l) : c = r ∨ (c ∈ l ∧ p c = false) := by
  induction l generalizing b with
  | nil => simp [collapseGo] at h
  | cons a l ih =>
    cases hp : p a with
    | true =>
      cases b with
      | true =>
        rw [collapseGo_cons_pos_true l hp] at h
        rcases ih true h with h' | ⟨h1, h2⟩
        · exact Or.inl h'
        · exact Or.inr ⟨List.mem_cons_of_mem _ h1, h2⟩
      | false =>
        rw [collapseGo_cons_pos_false l hp] at h
        rcases List.mem_cons.mp h with h' | h'
        · exact Or.inl h'
        · rcases ih true h' with h'' | ⟨h1, h2⟩
          · exact Or.inl h''
          · exact Or.inr ⟨List.mem_cons_of_mem _ h1, h2⟩
    | false =>
      rw [collapseGo_cons_neg b l hp] at h
      rcases List.mem_cons.mp h with h' | h'
      · subst h'
        exact Or.inr ⟨List.mem_cons_self _ _, hp⟩
      · rcases ih false h' with h'' | ⟨h1, h2⟩
        · exact Or.inl h''
        · exact Or.inr ⟨List.mem_cons_of_mem _ h1, h2⟩

theorem head_collapseGo_true {p : Char → Bool} {r : Char} {c : Char} :
    ∀ l : List Char, (collapseGo p r true l).head? = some c → p c = false
  | [], h => by simp [collapseGo] at h
  | a :: l, h => by
    cases hp : p a with
    | true =>
      rw [collapseGo_cons_pos_true l hp] at h
      exact head_collapseGo_true l h
    | false =>
      rw [collapseGo_cons_neg true l hp] at h
      simp only [List.head?_cons, Option.some.injEq] at h
      subst h
      exact hp

theorem chain'_collapseGo (p : Char → Bool) (r : Char) :
    ∀ (l : List Char) (b : Bool), List.Chain' (noTwo p) (collapseGo p r b l)
  | [], _ => by simp [collapseGo]
  | a :: l, b => by
    cases hp : p a with
    | true =>
      cases b with
      | true =>
        rw [collapseGo_cons_pos_true l hp]
        exact chain'_collapseGo p r l true
      | false =>
        rw [collapseGo_cons_pos_false l hp, List.chain'_cons']
        refine ⟨?_, chain'_collapseGo p r l true⟩
        intro y hy
        have := head_collapseGo_true l hy
        exact fun hc => by simp [this] at hc
    | false =>
      rw [collapseGo_cons_neg b l hp, List.chain'_cons']
      refine ⟨?_, chain'_collapseGo p r l false⟩
      intro y _
      exact fun hc => by simp [hp] at hc

theorem collapseGo_eq_self_of_nop {p : Char → Bool} {r : Char} :
    ∀ l : List Char, (∀ c ∈ l, p c = false) → collapseGo p r false l = l
  | [], _ => rfl
  | a :: l, h => by
    have ha : p a = false := h a (List.mem_cons_self _ _)
    rw [collapseGo_cons_neg false l ha,
      collapseGo_eq_self_of_nop l (fun c hc => h c (List.mem_cons_of_mem _ hc))]

theorem collapseGo_eq_self {p : Char → Bool} {r : Char} :
    ∀ l : List Char, (∀ c ∈ l, p c = true → c = r) → List.Chain' (noTwo p) l →
      collapseGo p r false l = l
  | [], _, _ => rfl
  | a :: l, hall, hch => by
    cases hp : p a with
    | true =>
      have har : a = r := hall a (List.mem_cons_self _ _) hp
      rw [collapseGo_cons_pos_false l hp]
      cases l with
      | nil => simp [collapseGo, har]
      | cons b l' =>
        have hb : p b = false := by
          have := (List.chain'_cons'.mp hch).1 b (by simp)
          cases hb' : p b with
          | true => exact absurd ⟨hp, hb'⟩ this
          | false => rfl
        have htail : collapseGo p r false (b :: l') = b :: l' :=
          collapseGo_eq_self (b :: l')
            (fun c hc hcp => hall c (List.mem_cons_of_mem _ hc) hcp)
            (List.Chain'.tail hch)
        rw [collapseGo_cons_neg false l' hb] at htail
        have htail' : collapseGo p r false l' = l' := by injection htail
        rw [collapseGo_cons_neg true l' hb, htail', har]
    | false =>
      rw [collapseGo_cons_neg false l hp,
        collapseGo_eq_self l (fun c hc hcp => hall c (List.mem_cons_of_mem _ hc) hcp)
          (List.Chain'.tail hch)]

theorem head?_dropWhile {p : Char → Bool} {c : Char} :
    ∀ l : List Char, (l.dropWhile p).head? = some c → p c = false
  | [], h => by simp [List.dropWhile] at h
  | a :: l, h => by
    cases hp : p a with
    | true =>
      rw [List.dropWhile_cons_of_pos hp] at h
      exact head?_dropWhile l h
    | false =>
      rw [List.dropWhile_cons_of_neg (by simp [hp])] at h
      simp only [List.head?_cons, Option.some.injEq] at h
      subst h
      exact hp

theorem dropWhile_eq_self_of_head {p : Char → Bool} :
    ∀ l : List Char, (∀ c, l.head? = some c → p c = false) → l.dropWhile p = l
  | [], _ => rfl
  | a :: l, h => by
    have := h a (by simp)
    rw [List.dropWhile_cons_of_neg (by simp [this])]

theorem pyStripList_front (l : List Char) : pyStripList l <+: l.dropWhile pySpace := by
  unfold pyStripList
  rw [← List.reverse_suffix, List.reverse_reverse]
  exact List.dropWhile_suffix _

/-- `pyStripList l` is a contiguous piece of `l`. -/
theorem pyStripList_contig (l : List Char) : pyStripList l <:+: l :=
  List.IsInfix.trans ( List.IsPrefix.isInfix (pyStripList_front l))
    ( List.IsSuffix.isInfix (List.dropWhile_suffix _))

theorem head?_pyStripList {c : Char} (l : List Char)
    (h : (pyStripList l).head? = some c) : pySpace c = false := by
  obtain ⟨t, ht⟩ := pyStripList_front l
  cases hsl : pyStripList l with
  | nil => rw [hsl] at h; simp at h
  | cons a s =>
    rw [hsl] at h ht
    simp only [List.head?_cons, Option.some.injEq] at h
    subst h
    exact head?_dropWhile l (by rw [← ht]; simp)

theorem pyStripList_eq_self (l : List Char)
    (h1 : ∀ c, l.head? = some c → pySpace c = false)
    (h2 : ∀ c, l.getLast? = some c → pySpace c = false) : pyStripList l = l := by
  unfold pyStripList
  rw [dropWhile_eq_self_of_head l h1]
  rw [dropWhile_eq_self_of_head l.reverse (fun c hc => h2 c (by rwa [List.head?_reverse] at hc))]
  exact List.reverse_reverse l

theorem head?_take {α : Type} {c : α} {n : Nat} :
    ∀ l : List α, (l.take n).head? = some c → l.head? = some c := by
  intro l h
  cases n with
  | zero => simp [List.take] at h
  | succ m => cases l with
    | nil => simp at h
    | cons a t => simpa using h

theorem data_mk (l : List Char) : (⟨l⟩ : String).data = l := rfl

theorem safe_name_data (s : String) (h : ¬ s = "") :
    (safe_name s).data = (pyStripList (collapseRuns pySpace ' '
      (collapseRuns forbiddenChar '_' s.data))).take 120 := by
  rw [safe_name, if_neg h, data_mk]

theorem safe_name_no_forbidden (s : String) :
    ∀ c ∈ (safe_name s).data, forbiddenChar c = false := by
  by_cases hs : s = ""
  · subst hs; decide
  · intro c hc
    rw [safe_name_data s hs] at hc
    have hc2 := (pyStripList_contig _).subset (List.take_subset _ _ hc)
    rcases mem_collapseGo _ false hc2 with h' | ⟨h1, _⟩
    · subst h'; decide
    · rcases mem_collapseGo _ false h1 with h'' | ⟨_, h2⟩
      · subst h''; decide
      · exact h2

theorem safe_name_spaces_single (s : String) :
    ∀ c ∈ (safe_name s).data, pySpace c = true → c = ' ' := by
  by_cases hs : s = ""
  · subst hs; decide
  · intro c hc hsp
    rw [safe_name_data s hs] at hc
    have hc2 := (pyStripList_contig _).subset (List.take_subset _ _ hc)
    rcases mem_collapseGo _ false hc2 with h' | ⟨_, h2⟩
    · exact h'
    · rw [hsp] at h2; cases h2

theorem safe_name_chain (s : String) :
    List.Chain' (noTwo pySpace) (safe_name s).data := by
  by_cases hs : s = ""
  · subst hs
    show List.Chain' (noTwo pySpace) "untitled".data
    simp [List.chain'_cons, noTwo, pySpace]
  · rw [safe_name_data s hs]
    refine List.Chain'.prefix ?_ ( List.take_prefix _ _)
    exact List.Chain'.infix (chain'_collapseGo pySpace ' ' _ false) (pyStripList_contig _)

theorem safe_name_head (s : String) :
    ∀ c, (safe_name s).data.head? = some c → pySpace c = false := by
  by_cases hs : s = ""
  · subst hs
    intro c hc
    have h0 : safe_name "" = "untitled" := rfl
    rw [h0] at hc
    have h1 : ("untitled").data.head? = some 'u' := rfl
    rw [h1] at hc
    injection hc with hc
    subst hc
    decide
  · intro c hc
    rw [safe_name_data s hs] at hc
    exact head?_pyStripList _ (head?_take _ hc)

theorem safe_name_len (s : String) : (safe_name s).data.length ≤ 120 := by
  by_cases hs : s = ""
  · subst hs; decide
  · rw [safe_name_data s hs]
    exact List.length_take_le _ _

theorem safe_name_idem_cond (s : String) (hne : ¬ safe_name s = "")
    (hlast : ¬ (safe_name s).data.getLast? = some ' ') :
    safe_name (safe_name s) = safe_name s := by
  have hlast' : ∀ c, (safe_name s).data.getLast? = some c → pySpace c = false := by
    intro c hc
    cases hp : pySpace c with
    | true =>
      have hmem : c ∈ (safe_name s).data :=
        List.mem_of_mem_getLast? (show c ∈ (safe_name s).data.getLast? from hc)
      have := safe_name_spaces_single s c hmem hp
      subst this
      exact absurd hc hlast
    | false => rfl
  have h1 : collapseRuns forbiddenChar '_' (safe_name s).data = (safe_name s).data :=
    collapseGo_eq_self_of_nop _ (safe_name_no_forbidden s)
  have h2 : collapseRuns pySpace ' ' (safe_name s).data = (safe_name s).data :=
    collapseGo_eq_self _ (safe_name_spaces_single s) (safe_name_chain s)
  have h3 : pyStripList (safe_name s).data = (safe_name s).data :=
    pyStripList_eq_self _ (safe_name_head s) hlast'
  have h4 : ((safe_name s).data).take 120 = (safe_name s).data :=
    List.take_of_length_le (safe_name_len s)
  rw [safe_name, if_neg hne, h1, h2, h3, h4]

/-- C4, counterexample: `safe_name` is not idempotent.  A whitespace-only
input sanitizes to the empty string, which re-sanitizes to `"untitled"`. -/
theorem safe_name_not_idempotent : ¬ (safe_name (safe_name " ") = safe_name " ") := by
  decide

/-- C4 (amended): `safe_name` output contains no forbidden character, its
whitespace is collapsed to single isolated spaces, it has no leading
whitespace, it is at most 120 characters, and empty input yields
`"untitled"`; it is idempotent only on the condition that the output is
nonempty and does not end with a space (an all-whitespace input sanitizes
to `""`, and truncation to 120 characters after trimming can leave a
trailing space, so unconditional idempotence and trimming both fail). -/
theorem safe_name_amended (s : String) :
    (∀ c ∈ (safe_name s).data, forbiddenChar c = false)
    ∧ (∀ c ∈ (safe_name s).data, pySpace c = true → c = ' ')
    ∧ List.Chain' (noTwo pySpace) (safe_name s).data
    ∧ (∀ c, (safe_name s).data.head? = some c → pySpace c = false)
    ∧ (safe_name s).data.length ≤ 120
    ∧ safe_name "" = "untitled"
    ∧ (¬ safe_name s = "" → ¬ (safe_name s).data.getLast? = some ' ' →
        safe_name (safe_name s) = safe_name s) :=
  ⟨safe_name_no_forbidden s, safe_name_spaces_single s, safe_name_chain s,
    safe_name_head s, safe_name_len s, rfl, safe_name_idem_cond s⟩

/-- C4 witness: the amended theorem applied at the concrete input `"a b"`,
whose sanitized form is nonempty with no trailing space. -/
theorem safe_name_amended_witness : safe_name (safe_name "a b") = safe_name "a b" :=
  (safe_name_amended "a b").2.2.2.2.2.2 (by decide) (by decide)

/-! ### Decimal rendering of naturals

`unique_path` builds candidate names with Python's `f"{stem} ({i}){suffix}"`;
the embedding renders `i` with `Nat.repr`.  We prove `Nat.repr` injective by
relating it to a structural digit list and a decimal evaluator. -/

/-- The digit list of `n` in base 10, most significant first. -/
def myDigits (n : Nat) : List Char :=
  if h : n < 10 then [Nat.digitChar n]
  else myDigits (n / 10) ++ [Nat.digitChar (n % 10)]
termination_by n
decreasing_by exact Nat.div_lt_self (by omega) (by omega)

theorem toDigitsCore_eq_myDigits :
    ∀ (fuel n : Nat) (ds : List Char), n < fuel →
      Nat.toDigitsCore 10 fuel n ds = myDigits n ++ ds
  | 0, n, ds, h => absurd h (by omega)
  | fuel + 1, n, ds, h => by
    rw [Nat.toDigitsCore]
    by_cases h10 : n < 10
    · have hz : n / 10 = 0 := Nat.div_eq_of_lt h10
      simp only [hz, if_pos rfl]
      rw [myDigits, dif_pos h10, Nat.mod_eq_of_lt h10]
      rfl
    · have hz : ¬ n / 10 = 0 := by
        have : 10 ≤ n := by omega
        have := Nat.le_div_iff_mul_le (by omega : 0 < 10) |>.mpr (by omega : 1 * 10 ≤ n)
        omega
      simp only [if_neg hz]
      have hlt : n / 10 < fuel := by
        have h1 : n / 10 < n := Nat.div_lt_self (by omega) (by omega)
        omega
      rw [toDigitsCore_eq_myDigits fuel (n / 10) _ hlt]
      conv_rhs => rw [myDigits, dif_neg h10]
      simp

theorem toDigits_eq_myDigits (n : Nat) : Nat.toDigits 10 n = myDigits n := by
  rw [Nat.toDigits, toDigitsCore_eq_myDigits (n + 1) n [] (by omega)]
  simp

/-- Value of a decimal digit character. -/
def digitVal (c : Char) : Nat := c.toNat - '0'.toNat

/-- Evaluate a list of decimal digit characters. -/
def decVal (l : List Char) : Nat := l.foldl (fun a c => 10 * a + digitVal c) 0

theorem decVal_append (l : List Char) (c : Char) :
    decVal (l ++ [c]) = 10 * decVal l + digitVal c := by
  unfold decVal
  rw [List.foldl_append]
  rfl

theorem digitVal_digitChar (d : Nat) (h : d < 10) :
    digitVal (Nat.digitChar d) = d := by
  interval_cases d <;> rfl

theorem decVal_myDigits (n : Nat) : decVal (myDigits n) = n := by
  by_cases h : n < 10
  · rw [myDigits, dif_pos h]
    show decVal ([] ++ [Nat.digitChar n]) = n
    rw [decVal_append, digitVal_digitChar n h]
    simp [decVal]
  · rw [myDigits, dif_neg h, decVal_append,
      decVal_myDigits (n / 10), digitVal_digitChar _ (Nat.mod_lt _ (by omega))]
    omega
termination_by n
decreasing_by exact Nat.div_lt_self (by omega) (by omega)

theorem nat_repr_injective : Function.Injective Nat.repr := by
  intro m n h
  have hd : Nat.toDigits 10 m = Nat.toDigits 10 n := by
    have h1 : (Nat.toDigits 10 m).asString = (Nat.toDigits 10 n).asString := h
    have h2 := List.asString_eq.mp h1
    simpa using h2
  have := congrArg decVal hd
  rwa [toDigits_eq_myDigits, toDigits_eq_myDigits, decVal_myDigits, decVal_myDigits] at this

/-! ### NameSanitizer: `unique_path` (downloader.py lines 69-77)

The directory is modelled as the list of file names it contains.  Python's
`pathlib` stem/suffix split puts the suffix at the last dot, provided that
dot is neither the first character of the name nor its last. -/

/-- `p.stem, p.suffix` of `pathlib` for a plain file name (no separators):
split at the last `'.'` when `0 < i < len - 1`, else no suffix. -/
def splitExt (name : String) : String × String :=
  let l := name.data
  match (l.reverse.findIdx? (· = '.')) with
  | some j =>
    let k := l.length - 1 - j
    if 0 < k ∧ k < l.length - 1 then (⟨l.take k⟩, ⟨l.drop k⟩) else (name, "")
  | none => (name, "")

/-- The candidate name `f"{stem} ({i}){suffix}"`. -/
def candName (stem suffix : String) (i : Nat) : String :=
  stem ++ " (" ++ Nat.repr i ++ ")" ++ suffix

/-- The `while (dirpath / f"{stem} ({i}){suffix}").exists(): i += 1` loop,
given enough fuel to reach a free index. -/
def findFree (dir : List String) (stem suffix : String) : Nat → Nat → Nat
  | i, 0 => i
  | i, fuel + 1 =>
    if candName stem suffix i ∈ dir then findFree dir stem suffix (i + 1) fuel else i

/-- `unique_path` from downloader.py: the name itself if unused, else the
first `f"{stem} ({i}){suffix}"`, `i = 1, 2, ...`, that is unused. -/
def unique_path (dir : List String) (filename : String) : String :=
  if filename ∈ dir then
    candName (splitExt filename).1 (splitExt filename).2
      (findFree dir (splitExt filename).1 (splitExt filename).2 1 (dir.length + 1))
  else filename

theorem candName_injective (stem suffix : String) :
    Function.Injective (candName stem suffix) := by
  intro i j h
  apply nat_repr_injective
  apply String.ext
  have hd := congrArg String.data h
  simp only [candName, String.data_append, List.append_assoc] at hd
  have h1 := List.append_cancel_left hd
  have h2 := List.append_cancel_left h1
  rw [← List.append_assoc, ← List.append_assoc] at h2
  have h3 := List.append_cancel_right h2
  exact List.append_cancel_right h3

theorem exists_fresh (dir : List String) (stem suffix : String) :
    ∃ k, k < dir.length + 1 ∧ candName stem suffix (1 + k) ∉ dir := by
  by_contra hall
  push_neg at hall
  have hsub : (Finset.range (dir.length + 1)).image (fun k => candName stem suffix (1 + k)) ⊆
      dir.toFinset := by
    intro x hx
    rcases Finset.mem_image.mp hx with ⟨k, hk, rfl⟩
    exact List.mem_toFinset.mpr (hall k (Finset.mem_range.mp hk))
  have hinj : Function.Injective (fun k => candName stem suffix (1 + k)) := by
    intro a b hab
    have := candName_injective stem suffix hab
    omega
  have hcard := Finset.card_le_card hsub
  rw [Finset.card_image_of_injective _ hinj, Finset.card_range] at hcard
  have := List.toFinset_card_le dir
  omega

theorem findFree_spec (dir : List String) (stem suffix : String) :
    ∀ (fuel i : Nat), (∃ k, k < fuel ∧ candName stem suffix (i + k) ∉ dir) →
      i ≤ findFree dir stem suffix i fuel
      ∧ candName stem suffix (findFree dir stem suffix i fuel) ∉ dir
      ∧ ∀ j, i ≤ j → j < findFree dir stem suffix i fuel → candName stem suffix j ∈ dir
  | 0, i, h => absurd h (by simp)
  | fuel + 1, i, h => by
    by_cases hmem : candName stem suffix i ∈ dir
    · rw [findFree, if_pos hmem]
      obtain ⟨k, hk, hfree⟩ := h
      have hk0 : k ≠ 0 := by
        intro h0
        subst h0
        simp only [Nat.add_zero] at hfree
        exact hfree hmem
      have hnext : ∃ k', k' < fuel ∧ candName stem suffix (i + 1 + k') ∉ dir := by
        refine ⟨k - 1, by omega, ?_⟩
        have : i + 1 + (k - 1) = i + k := by omega
        rwa [this]
      obtain ⟨hle, hf, hmin⟩ := findFree_spec dir stem suffix fuel (i + 1) hnext
      refine ⟨by omega, hf, ?_⟩
      intro j hij hjlt
      by_cases hji : j = i
      · subst hji; exact hmem
      · exact hmin j (by omega) hjlt
    · rw [findFree, if_neg hmem]
      exact ⟨Nat.le_refl i, hmem, fun j h1 h2 => absurd (Nat.lt_of_le_of_lt h1 h2)
        (Nat.lt_irrefl i)⟩

/-- C7: `unique_path` returns `filename` itself when unused; otherwise it
returns `f"{stem} ({i}){suffix}"` for the smallest unused `i ≥ 1`; in every
case the returned name is not an existing one, so nothing is overwritten. -/
theorem unique_path_spec (dir : List String) (filename : String) :
    (filename ∉ dir → unique_path dir filename = filename)
    ∧ unique_path dir filename ∉ dir
    ∧ (filename ∈ dir →
        ∃ i, 1 ≤ i
          ∧ unique_path dir filename = candName (splitExt filename).1 (splitExt filename).2 i
          ∧ candName (splitExt filename).1 (splitExt filename).2 i ∉ dir
          ∧ ∀ j, 1 ≤ j → j < i → candName (splitExt filename).1 (splitExt filename).2 j ∈ dir) := by
  by_cases hmem : filename ∈ dir
  · have hex : ∃ k, k < dir.length + 1 ∧
        candName (splitExt filename).1 (splitExt filename).2 (1 + k) ∉ dir :=
      exists_fresh dir _ _
    obtain ⟨hle, hfree, hmin⟩ := findFree_spec dir (splitExt filename).1 (splitExt filename).2
      (dir.length + 1) 1 hex
    refine ⟨fun h => absurd hmem h, ?_, fun _ => ⟨_, hle, ?_, hfree, hmin⟩⟩
    · rw [unique_path, if_pos hmem]
      exact hfree
    · rw [unique_path, if_pos hmem]
  · refine ⟨fun _ => by rw [unique_path, if_neg hmem], ?_, fun h => absurd h hmem⟩
    rw [unique_path, if_neg hmem]
    exact hmem

/-- C7 witness: with `a.txt` and `a (1).txt` present, `unique_path` picks
`a (2).txt`, which indeed does not exist; the general theorem applied at
this directory confirms the chosen index is minimal. -/
theorem unique_path_spec_witness :
    "a.txt" ∈ (["a.txt", "a (1).txt"] : List String)
    ∧ unique_path ["a.txt", "a (1).txt"] "a.txt" = "a (2).txt"
    ∧ unique_path ["a.txt"] "a.txt" = "a (1).txt"
    ∧ (∃ i, 1 ≤ i
        ∧ unique_path ["a.txt", "a (1).txt"] "a.txt"
          = candName (splitExt "a.txt").1 (splitExt "a.txt").2 i
        ∧ candName (splitExt "a.txt").1 (splitExt "a.txt").2 i ∉ (["a.txt", "a (1).txt"] : List String)
        ∧ ∀ j, 1 ≤ j → j < i →
            candName (splitExt "a.txt").1 (splitExt "a.txt").2 j ∈ (["a.txt", "a (1).txt"] : List String)) :=
  ⟨by decide, by decide, by decide,
    (unique_path_spec ["a.txt", "a (1).txt"] "a.txt").2.2 (by decide)⟩

/-! ### `urllib.parse` as used by the downloader

The downloader calls `urlparse`, `urljoin` and `geturl` from the standard
library; these are embedded following CPython 3.11 (`Lib/urllib/parse.py`).
The `ValueError` paths for unbalanced IPv6 brackets and the
`_checknetloc` unicode check are not modelled (none of the URLs the
claims quantify over reach them). -/

/-- Python `scheme_chars`: letters, digits, `+`, `-` and `.`. -/
def schemeChar (c : Char) : Bool := c.isAlpha || c.isDigit || c = '+' || c = '-' || c = '.'

/-- WHATWG C0-control-or-space class stripped from the left of a URL. -/
def c0ControlOrSpace (c : Char) : Bool := c.toNat ≤ 0x20

/-- `urlsplit`'s input scrub: lstrip C0 controls and spaces, then remove
every tab, CR and LF. -/
def urlScrub (l : List Char) : List Char :=
  (l.dropWhile c0ControlOrSpace).filter (fun c => !(c = '\t' || c = '\r' || c = '\n'))

/-- Split a character list at the first occurrence of `sep` (Python
`str.split(sep, 1)` when it succeeds, `str.find` otherwise). -/
def breakAtChar (sep : Char) : List Char → Option (List Char × List Char)
  | [] => none
  | c :: cs =>
    if c = sep then some ([], cs)
    else
      match breakAtChar sep cs with
      | some (a, b) => some (c :: a, b)
      | none => none

/-- Python `str.lower()` (ASCII; scheme characters are ASCII). -/
def strLower (l : List Char) : String := ⟨l.map Char.toLower⟩

/-- Python `str.split(sep)` for a one-character separator. -/
def splitChar (sep : Char) : List Char → List (List Char)
  | [] => [[]]
  | c :: cs =>
    if c = sep then [] :: splitChar sep cs
    else
      match splitChar sep cs with
      | h :: t => (c :: h) :: t
      | [] => [[c]]

/-- Python `sep.join` for `'/'`. -/
def joinSlash : List String → String
  | [] => ""
  | [s] => s
  | s :: rest => s ++ "/" ++ joinSlash rest

/-- Result of `urlsplit`. -/
structure SplitResult where
  scheme : String
  netloc : String
  path : String
  query : String
  fragment : String
deriving Repr, DecidableEq

/-- `urlsplit(url, scheme)` of CPython 3.11 with `allow_fragments=True`. -/
def urlsplit (url : String) (defaultScheme : String := "") : SplitResult :=
  let u := urlScrub url.data
  let schemeRest : String × List Char :=
    match breakAtChar ':' u with
    | some (pre, post) =>
      match pre with
      | [] => (defaultScheme, u)
      | c :: cs =>
        if c.isAlpha ∧ (c :: cs).all schemeChar then (strLower (c :: cs), post)
        else (defaultScheme, u)
    | none => (defaultScheme, u)
  let rest := schemeRest.2
  let netlocRest : List Char × List Char :=
    if rest.take 2 = ['/', '/'] then
      ((rest.drop 2).takeWhile (fun c => !(c = '/' || c = '?' || c = '#')),
       (rest.drop 2).dropWhile (fun c => !(c = '/' || c = '?' || c = '#')))
    else ([], rest)
  let fragSplit : List Char × List Char :=
    match breakAtChar '#' netlocRest.2 with
    | some (a, b) => (a, b)
    | none => (netlocRest.2, [])
  let querySplit : List Char × List Char :=
    match breakAtChar '?' fragSplit.1 with
    | some (a, b) => (a, b)
    | none => (fragSplit.1, [])
  ⟨schemeRest.1, ⟨netlocRest.1⟩, ⟨querySplit.1⟩, ⟨querySplit.2⟩, ⟨fragSplit.2⟩⟩

/-- Result of `urlparse`. -/
structure ParseResult where
  scheme : String
  netloc : String
  path : String
  params : String
  query : String
  fragment : String
deriving Repr, DecidableEq

/-- Python `uses_params`. -/
def usesParams : List String :=
  ["", "ftp", "hdl", "prospero", "http", "imap", "https", "shttp", "rtsp",
   "rtsps", "rtspu", "sip", "sips", "mms", "sftp", "tel"]

/-- Python `uses_relative`. -/
def usesRelative : List String :=
  ["", "ftp", "http", "gopher", "nntp", "imap", "wais", "file", "https",
   "shttp", "mms", "prospero", "rtsp", "rtsps", "rtspu", "sftp", "svn",
   "svn+ssh", "ws", "wss"]

/-- Python `uses_netloc`. -/
def usesNetloc : List String :=
  ["", "ftp", "http", "gopher", "nntp", "telnet", "imap", "wais", "file",
   "mms", "https", "shttp", "snews", "prospero", "rtsp", "rtsps", "rtspu",
   "rsync", "svn", "svn+ssh", "sftp", "nfs", "git", "git+ssh", "ws", "wss"]

/-- Split off everything after the last `'/'` of `l` (the whole list when
there is no `'/'` counts as final segment, handled by the caller). -/
def lastSlashSplit (l : List Char) : List Char × List Char :=
  let r := l.reverse
  let seg := r.takeWhile (· ≠ '/')
  ((r.drop seg.length).reverse, seg.reverse)

/-- Python `_splitparams`: split `;params` off the last path segment. -/
def splitparams (l : List Char) : List Char × List Char :=
  if '/' ∈ l then
    let pre := (lastSlashSplit l).1
    let seg := (lastSlashSplit l).2
    match breakAtChar ';' seg with
    | some (a, b) => (pre ++ a, b)
    | none => (l, [])
  else
    match breakAtChar ';' l with
    | some (a, b) => (a, b)
    | none => (l, [])

/-- `urlparse(url, scheme)` of CPython 3.11 with `allow_fragments=True`. -/
def urlparse (url : String) (defaultScheme : String := "") : ParseResult :=
  let s := urlsplit url defaultScheme
  if s.scheme ∈ usesParams ∧ ';' ∈ s.path.data then
    ⟨s.scheme, s.netloc, ⟨(splitparams s.path.data).1⟩, ⟨(splitparams s.path.data).2⟩,
      s.query, s.fragment⟩
  else ⟨s.scheme, s.netloc, s.path, "", s.query, s.fragment⟩

/-- Python `urlunsplit`. -/
def urlunsplit (scheme netloc path query fragment : String) : String :=
  let url1 :=
    if netloc ≠ "" ∨ (path ≠ "" ∧ path.data.take 2 = ['/', '/']) then
      "//" ++ netloc ++ (if path ≠ "" ∧ path.data.take 1 ≠ ['/'] then "/" ++ path else path)
    else path
  let url2 := if scheme ≠ "" then scheme ++ ":" ++ url1 else url1
  let url3 := if query ≠ "" then url2 ++ "?" ++ query else url2
  if fragment ≠ "" then url3 ++ "#" ++ fragment else url3

/-- Python `urlunparse`. -/
def urlunparse (scheme netloc path params query fragment : String) : String :=
  urlunsplit scheme netloc (if params ≠ "" then path ++ ";" ++ params else path)
    query fragment

/-- The `segments[1:-1] = filter(None, segments[1:-1])` step of `urljoin`. -/
def filterMiddle (segs : List String) : List String :=
  match segs with
  | [] => []
  | [a] => [a]
  | a :: rest =>
    match rest.reverse with
    | [] => [a]
    | lastSeg :: midRev => a :: (midRev.reverse.filter (· ≠ "")) ++ [lastSeg]

/-- The `..`/`.` resolution loop of `urljoin` (`pop` on empty is ignored). -/
def resolveSegs (acc : List String) : List String → List String
  | [] => acc
  | s :: rest =>
    if s = ".." then resolveSegs acc.dropLast rest
    else if s = "." then resolveSegs acc rest
    else resolveSegs (acc ++ [s]) rest

/-- `urljoin(base, url)` of CPython 3.11. -/
def urljoin (base url : String) : String :=
  if base = "" then url
  else if url = "" then base
  else
    let b := urlparse base ""
    let u := urlparse url b.scheme
    if u.scheme ≠ b.scheme ∨ u.scheme ∉ usesRelative then url
    else if u.scheme ∈ usesNetloc ∧ u.netloc ≠ "" then
      urlunparse u.scheme u.netloc u.path u.params u.query u.fragment
    else
      let netloc := if u.scheme ∈ usesNetloc then b.netloc else u.netloc
      if u.path = "" ∧ u.params = "" then
        urlunparse u.scheme netloc b.path b.params
          (if u.query = "" then b.query else u.query) u.fragment
      else
        let baseParts0 := (splitChar '/' b.path.data).map (fun l => (⟨l⟩ : String))
        let baseParts :=
          if baseParts0.getLast? = some "" then baseParts0 else baseParts0.dropLast
        let urlParts := (splitChar '/' u.path.data).map (fun l => (⟨l⟩ : String))
        let segments :=
          if u.path.data.take 1 = ['/'] then urlParts
          else filterMiddle (baseParts ++ urlParts)
        let resolved := resolveSegs [] segments
        let resolved2 :=
          if segments.getLast? = some "." ∨ segments.getLast? = some ".." then
            resolved ++ [""]
          else resolved
        let joined := joinSlash resolved2
        urlunparse u.scheme netloc (if joined = "" then "/" else joined)
          u.params u.query u.fragment

/-- `urlparse(u)._replace(fragment="").geturl()`: the fragment-stripping
normalization applied before deduplication in `extract_all_links_from_html`. -/
def geturlNoFragment (u : String) : String :=
  let p := urlparse u ""
  urlunparse p.scheme p.netloc p.path p.params p.query ""

/-! ### `is_same_host` and `authed_headers_for` (downloader.py lines 79-105) -/

/-- `is_same_host` from downloader.py: netloc comparison between the target
URL and the cleaned API URL. -/
def is_same_host (apiUrlClean url : String) : Bool :=
  (urlparse url "").netloc == (urlparse apiUrlClean "").netloc

/-- `BASE_HEADERS` from downloader.py. -/
def BASE_HEADERS : List (String × String) :=
  [("User-Agent", "Mozilla/5.0 (CanvasDownloader)")]

/-- `authed_headers_for` from downloader.py: the bearer credential and
referer are added only for same-host URLs with a truthy (nonempty) key. -/
def authed_headers_for (apiUrlClean apiKey url : String) : List (String × String) :=
  if is_same_host apiUrlClean url ∧ apiKey ≠ "" then
    BASE_HEADERS ++ [("Authorization", "Bearer " ++ apiKey), ("Referer", apiUrlClean)]
  else BASE_HEADERS

/-- C6: credential confinement.  The Authorization (bearer) and Referer
headers are present iff the URL's host (netloc) equals the API host and the
credential is nonempty; when they are present they carry exactly the bearer
credential and the API URL; and for a URL on a different host the produced
headers are the bare `BASE_HEADERS`, independent of the credential value. -/
theorem authed_headers_confinement (apiUrlClean apiKey url : String) :
    ((∃ v, ("Authorization", v) ∈ authed_headers_for apiUrlClean apiKey url) ↔
      (is_same_host apiUrlClean url = true ∧ apiKey ≠ ""))
    ∧ ((∃ v, ("Referer", v) ∈ authed_headers_for apiUrlClean apiKey url) ↔
      (is_same_host apiUrlClean url = true ∧ apiKey ≠ ""))
    ∧ (is_same_host apiUrlClean url = true → apiKey ≠ "" →
        ("Authorization", "Bearer " ++ apiKey) ∈ authed_headers_for apiUrlClean apiKey url
        ∧ ("Referer", apiUrlClean) ∈ authed_headers_for apiUrlClean apiKey url)
    ∧ (is_same_host apiUrlClean url = false → ∀ k1 k2 : String,
        authed_headers_for apiUrlClean k1 url = authed_headers_for apiUrlClean k2 url
        ∧ authed_headers_for apiUrlClean k1 url = BASE_HEADERS) := by
  by_cases hs : is_same_host apiUrlClean url = true
  · by_cases hk : apiKey = ""
    · subst hk
      simp [authed_headers_for, BASE_HEADERS, hs]
    · simp [authed_headers_for, BASE_HEADERS, hs, hk]
  · have hs' : is_same_host apiUrlClean url = false := by
      cases h : is_same_host apiUrlClean url
      · rfl
      · exact absurd h hs
    simp [authed_headers_for, BASE_HEADERS, hs']

/-- C6 witness: the theorem applied at a cross-host URL (headers coincide
for two different credentials and equal `BASE_HEADERS`) and at a same-host
URL (bearer header present). -/
theorem authed_headers_confinement_witness :
    is_same_host "https://canvas.example.edu" "https://cdn.other.net/a.gif" = false
    ∧ authed_headers_for "https://canvas.example.edu" "secret-1" "https://cdn.other.net/a.gif"
        = authed_headers_for "https://canvas.example.edu" "secret-2" "https://cdn.other.net/a.gif"
    ∧ authed_headers_for "https://canvas.example.edu" "secret-1" "https://cdn.other.net/a.gif"
        = BASE_HEADERS
    ∧ ("Authorization", "Bearer " ++ "secret-1")
        ∈ authed_headers_for "https://canvas.example.edu" "secret-1"
            "https://canvas.example.edu/files/1" :=
  ⟨by decide,
    ((authed_headers_confinement "https://canvas.example.edu" "secret-1"
      "https://cdn.other.net/a.gif").2.2.2 (by decide) "secret-1" "secret-2").1,
    ((authed_headers_confinement "https://canvas.example.edu" "secret-1"
      "https://cdn.other.net/a.gif").2.2.2 (by decide) "secret-1" "secret-2").2,
    ((authed_headers_confinement "https://canvas.example.edu" "secret-1"
      "https://canvas.example.edu/files/1").2.2.1 (by decide) (by decide)).1⟩

/-! ### `extract_file_id` (downloader.py lines 91-95)

`file_id_re = re.compile(r"/files/(\d+)(?:/|$)")` searched over
`urlparse(u).path`.  The regex engine's leftmost search with a greedy
`\d+` is equivalent to: at the leftmost position where `/files/` is
followed by a nonempty maximal ASCII digit run, the run must be followed
by `/`, the end of the string, or a final newline (Python `$`). -/

/-- Try to match `/files/(\d+)(?:/|$)` at the head of `l`. -/
def fileIdAt (l : List Char) : Option (List Char) :=
  if l.take 7 = "/files/".data then
    let rest := l.drop 7
    let ds := rest.takeWhile Char.isDigit
    let after := rest.drop ds.length
    if ds ≠ [] ∧ (after.head? = some '/' ∨ after = [] ∨ after = ['\n']) then some ds
    else none
  else none

/-- `re.search`: scan match positions left to right. -/
def reSearchFileId : List Char → Option (List Char)
  | [] => none
  | c :: cs =>
    match fileIdAt (c :: cs) with
    | some ds => some ds
    | none => reSearchFileId cs

/-- `extract_file_id` from downloader.py. -/
def extract_file_id (u : String) : Option String :=
  (reSearchFileId (urlparse u "").path.data).map fun ds => (⟨ds⟩ : String)

/-! ### LinkExtractor: `extract_all_links_from_html` (downloader.py lines 139-165)

BeautifulSoup's HTML parsing itself is not embeddable; the embedding
receives the element sequence (tag name plus attribute list, in document
order) that `BeautifulSoup(body, "html.parser")` produces for the page
body, and models the `find_all` queries and the URL pipeline over it. -/

/-- One parsed element: tag name and attributes. -/
structure Elem where
  tag : String
  attrs : List (String × String)
deriving Repr, DecidableEq

/-- `t.get(attr)`: the value bound to an attribute, if present. -/
def getAttr (e : Elem) (k : String) : Option String :=
  (e.attrs.find? (fun a => a.1 == k)).map (·.2)

/-- `soup.find_all("a", href=True)` pass: every anchor that HAS an href
attribute contributes `urljoin(base, href.strip())` — even an empty one. -/
def anchorUrls (doc : List Elem) (base : String) : List String :=
  doc.filterMap fun e =>
    if e.tag == "a" then (getAttr e "href").map (fun h => urljoin base (pyStripStr h))
    else none

/-- `find_all(tag)` pass with `val = t.get(attr); if val:`: missing and
empty values are skipped; kept values are stripped and joined. -/
def tagAttrUrls (doc : List Elem) (base : String) (tag attr : String) : List String :=
  doc.filterMap fun e =>
    if e.tag == tag then
      match getAttr e attr with
      | some v => if v ≠ "" then some (urljoin base (pyStripStr v)) else none
      | none => none
    else none

/-- `find_all(attrs={"data-api-endpoint": True})` pass: the value is used
verbatim (no join) after `strip()`, skipped when empty. -/
def apiEndpointUrls (doc : List Elem) : List String :=
  doc.filterMap fun e =>
    match getAttr e "data-api-endpoint" with
    | some v => if pyStripStr v ≠ "" then some (pyStripStr v) else none
    | none => none

/-- The `seen`-set deduplication loop, keeping first occurrences. -/
def dedupKeepFirst (seen : List String) : List String → List String
  | [] => []
  | u :: us =>
    if u ∈ seen then dedupKeepFirst seen us
    else u :: dedupKeepFirst (u :: seen) us

/-- `extract_all_links_from_html` from downloader.py over the parsed
document: anchor hrefs, then img/embed src and object data, then
data-api-endpoint values; every URL is fragment-stripped and the result
deduplicated preserving first-seen order. -/
def extract_all_links_from_html (doc : List Elem) (base : String) : List String :=
  dedupKeepFirst []
    ((anchorUrls doc base
      ++ tagAttrUrls doc base "img" "src"
      ++ tagAttrUrls doc base "embed" "src"
      ++ tagAttrUrls doc base "object" "data"
      ++ apiEndpointUrls doc).map geturlNoFragment)

theorem dedupKeepFirst_nodup (seen : List String) :
    ∀ l : List String, (dedupKeepFirst seen l).Nodup
      ∧ ∀ x ∈ dedupKeepFirst seen l, x ∉ seen
  | [] => ⟨List.nodup_nil, by simp [dedupKeepFirst]⟩
  | u :: us => by
    by_cases hu : u ∈ seen
    · rw [dedupKeepFirst, if_pos hu]
      exact dedupKeepFirst_nodup seen us
    · rw [dedupKeepFirst, if_neg hu]
      obtain ⟨hnd, hns⟩ := dedupKeepFirst_nodup (u :: seen) us
      refine ⟨List.nodup_cons.mpr ⟨fun hmem => ?_, hnd⟩, ?_⟩
      · exact hns u hmem (List.mem_cons_self _ _)
      · intro x hx
        rcases List.mem_cons.mp hx with rfl | hx'
        · exact hu
        · exact fun hxs => hns x hx' (List.mem_cons_of_mem _ hxs)

/-- C8: on the spec's test document the extractor returns both URLs,
resolved against the base and kept distinct (they differ after
fragment stripping), `extract_file_id` recognizes `42` from both, and in
general the extractor's output is duplicate-free (first-seen order
deduplication). -/
theorem extract_links_and_file_id :
    extract_all_links_from_html
        [⟨"a", [("href", "/files/42")]⟩, ⟨"img", [("src", "/files/42/preview")]⟩]
        "https://canvas.example.edu/courses/7/pages/intro"
      = ["https://canvas.example.edu/files/42",
         "https://canvas.example.edu/files/42/preview"]
    ∧ extract_file_id "https://canvas.example.edu/files/42" = some "42"
    ∧ extract_file_id "https://canvas.example.edu/files/42/preview" = some "42"
    ∧ ∀ (doc : List Elem) (base : String), (extract_all_links_from_html doc base).Nodup :=
  ⟨by decide, by decide, by decide,
    fun _ _ => (dedupKeepFirst_nodup [] _).1⟩

/-- C9 counterexample: an anchor whose `href` is the empty string DOES
contribute a URL.  `find_all("a", href=True)` only requires the attribute
to be present, and `urljoin(base, "")` returns the base URL, so the base
URL (fragment-stripped) appears in the output, contradicting the claim
that empty values contribute nothing. -/
theorem empty_anchor_contributes :
    extract_all_links_from_html [⟨"a", [("href", "")]⟩] "https://h/p" = ["https://h/p"]
    ∧ extract_all_links_from_html [⟨"a", [("href", "")]⟩] "https://h/p" ≠ [] := by
  refine ⟨by decide, ?_⟩
  intro h
  rw [show extract_all_links_from_html [⟨"a", [("href", "")]⟩] "https://h/p"
    = ["https://h/p"] from by decide] at h
  cases h

/-- An element that the extractor must skip: not an anchor carrying an
href; an img/embed with missing or empty (falsy) src; an object with
missing or empty data; any data-api-endpoint value blank after strip. -/
def inertElem (e : Elem) : Bool :=
  (!(e.tag == "a") || (getAttr e "href").isNone)
  && (!(e.tag == "img") || (getAttr e "src").isNone || (getAttr e "src" == some ""))
  && (!(e.tag == "embed") || (getAttr e "src").isNone || (getAttr e "src" == some ""))
  && (!(e.tag == "object") || (getAttr e "data").isNone || (getAttr e "data" == some ""))
  && (match getAttr e "data-api-endpoint" with
      | some v => pyStripStr v == ""
      | none => true)

/-- C9 (amended): images, embeds and objects whose attribute value is
missing or empty, data-api-endpoint values that are blank after stripping,
and anchors with NO href attribute contribute no URL; anchors with an
empty href, however, are not skipped (they resolve to the base URL, see
the counterexample). -/
theorem tagAttrUrls_eq_nil (doc : List Elem) (base tag attr : String)
    (h : ∀ e ∈ doc, e.tag == tag →
      getAttr e attr = none ∨ getAttr e attr = some "") :
    tagAttrUrls doc base tag attr = [] := by
  rw [tagAttrUrls, List.filterMap_eq_nil]
  intro e he
  by_cases ht : (e.tag == tag) = true
  · rw [if_pos ht]
    rcases h e he ht with hv | hv
    · rw [hv]
    · rw [hv]
      simp
  · rw [if_neg ht]

theorem inert_elements_contribute_nothing (doc : List Elem) (base : String)
    (h : ∀ e ∈ doc, inertElem e = true) :
    extract_all_links_from_html doc base = [] := by
  have hsplit : ∀ e ∈ doc,
      (!(e.tag == "a") || (getAttr e "href").isNone) = true
      ∧ (!(e.tag == "img") || (getAttr e "src").isNone || (getAttr e "src" == some "")) = true
      ∧ (!(e.tag == "embed") || (getAttr e "src").isNone || (getAttr e "src" == some "")) = true
      ∧ (!(e.tag == "object") || (getAttr e "data").isNone || (getAttr e "data" == some "")) = true
      ∧ (match getAttr e "data-api-endpoint" with
          | some v => pyStripStr v == ""
          | none => true) = true := by
    intro e he
    have := h e he
    unfold inertElem at this
    simp only [Bool.and_eq_true] at this
    exact ⟨this.1.1.1.1, this.1.1.1.2, this.1.1.2, this.1.2, this.2⟩
  have htag : ∀ attrName : String, ∀ e : Elem,
      (!(e.tag == attrName) || (getAttr e "src").isNone || (getAttr e "src" == some "")) = true →
      (e.tag == attrName) = true →
      getAttr e "src" = none ∨ getAttr e "src" = some "" := by
    intro attrName e hb ht
    rw [ht] at hb
    simp only [Bool.not_true, Bool.false_or, Bool.or_eq_true, Option.isNone_iff_eq_none,
      beq_iff_eq] at hb
    exact hb
  have hanchor : anchorUrls doc base = [] := by
    rw [anchorUrls, List.filterMap_eq_nil]
    intro e he
    obtain ⟨h1, -, -, -, -⟩ := hsplit e he
    by_cases ht : (e.tag == "a") = true
    · rw [if_pos ht]
      rw [ht] at h1
      simp only [Bool.not_true, Bool.false_or, Option.isNone_iff_eq_none] at h1
      rw [h1]
      rfl
    · rw [if_neg ht]
  have himg : tagAttrUrls doc base "img" "src" = [] :=
    tagAttrUrls_eq_nil doc base _ _ fun e he ht => htag "img" e (hsplit e he).2.1 ht
  have hembed : tagAttrUrls doc base "embed" "src" = [] :=
    tagAttrUrls_eq_nil doc base _ _ fun e he ht => htag "embed" e (hsplit e he).2.2.1 ht
  have hobject : tagAttrUrls doc base "object" "data" = [] := by
    apply tagAttrUrls_eq_nil
    intro e he ht
    have hb := (hsplit e he).2.2.2.1
    rw [ht] at hb
    simp only [Bool.not_true, Bool.false_or, Bool.or_eq_true, Option.isNone_iff_eq_none,
      beq_iff_eq] at hb
    exact hb
  have happi : apiEndpointUrls doc = [] := by
    rw [apiEndpointUrls, List.filterMap_eq_nil]
    intro e he
    have hb := (hsplit e he).2.2.2.2
    cases hv : getAttr e "data-api-endpoint" with
    | none => rfl
    | some v =>
      rw [hv] at hb
      simp only [beq_iff_eq] at hb
      simp [hb]
  rw [extract_all_links_from_html, hanchor, himg, hembed, hobject, happi]
  rfl

/-- C9 witness: the amended theorem applied to a document whose elements
are all skippable: an img with no src, an embed and an object with empty
values, a blank data-api-endpoint, and an anchor with no href. -/
theorem inert_elements_witness :
    extract_all_links_from_html
      [⟨"img", []⟩, ⟨"embed", [("src", "")]⟩, ⟨"object", [("data", "")]⟩,
       ⟨"div", [("data-api-endpoint", "  ")]⟩, ⟨"a", [("id", "x")]⟩]
      "https://h/p" = [] :=
  inert_elements_contribute_nothing _ "https://h/p" (by decide)

/-! ### BinaryFetcher: `infer_filename_from_headers` and `download_binary`
(downloader.py lines 82-89 and 119-137)

The HTTP layer is an oracle `net : String → GetResult`; the filesystem is
an explicit `Disk` (list of written files).  `requests` raises
`HTTPError` from `raise_for_status` exactly for status codes 400-599. -/

/-- A streamed HTTP response: status, Content-Disposition header (requests
headers are case-insensitive, covering both spellings the code probes),
the body chunks `iter_content` delivers, and — when `streamErr` is set —
a transport error raised after those chunks. -/
structure Resp where
  status : Nat
  contentDisposition : Option String
  chunks : List (List Nat)
  streamErr : Option String
deriving Repr, DecidableEq

/-- Outcome of `session.get(...)`: the call itself may raise, or returns a
response. -/
inductive GetResult
  | exc (msg : String)
  | ok (r : Resp)
deriving Repr, DecidableEq

/-- Match `filename\*?=(?:UTF-8'')?"?([^";]+)"?` at the head of `l` and
return the capture group.  The greedy optional parts try the longer
alternative first and fall back, as the regex engine does; the capture is
the maximal nonempty run without `"` or `;`. -/
def cdGroupAt (l : List Char) : Option (List Char) :=
  if l.take 8 = "filename".data then
    let r0 := l.drop 8
    let r1? : Option (List Char) :=
      if r0.take 2 = ['*', '='] then some (r0.drop 2)
      else if r0.take 1 = ['='] then some (r0.drop 1)
      else none
    match r1? with
    | none => none
    | some r1 =>
      let grab : List Char → Option (List Char) := fun r =>
        let r' := if r.head? = some '"' then r.drop 1 else r
        let g := r'.takeWhile (fun c => !(c = '"' || c = ';'))
        if g = [] then none else some g
      if r1.take 7 = "UTF-8''".data then
        match grab (r1.drop 7) with
        | some g => some g
        | none => grab r1
      else grab r1
  else none

/-- `re.search` for the Content-Disposition filename: scan positions left
to right. -/
def reSearchCdFilename : List Char → Option (List Char)
  | [] => none
  | c :: cs =>
    match cdGroupAt (c :: cs) with
    | some g => some g
    | none => reSearchCdFilename cs

/-- `Path(p).name` for a POSIX path string: the final component, with
empty and `.` components dropped (`..` is kept, as `pathlib` does). -/
def posixName (p : String) : String :=
  match ((splitChar '/' p.data).filter
      (fun seg => !(seg == ([] : List Char)) && !(seg == ['.']))).getLast? with
  | some seg => ⟨seg⟩
  | none => ""

/-- `infer_filename_from_headers` from downloader.py. -/
def infer_filename_from_headers (url : String) (r : Resp) (fallback : String) : String :=
  let cdVal : Option String :=
    match r.contentDisposition with
    | some c => if c = "" then none else some c
    | none => none
  match cdVal with
  | some cd =>
    match reSearchCdFilename cd.data with
    | some g => safe_name ⟨g⟩
    | none =>
      let nameFromPath := posixName (urlparse url "").path
      safe_name (if nameFromPath = "" then fallback else nameFromPath)
  | none =>
    let nameFromPath := posixName (urlparse url "").path
    safe_name (if nameFromPath = "" then fallback else nameFromPath)

/-- `DEFAULT_EXTS` from downloader.py. -/
def DEFAULT_EXTS : List String :=
  [".pdf", ".doc", ".docx", ".txt", ".rtf", ".ppt", ".pptx",
   ".ipynb", ".py", ".jpg", ".jpeg", ".png", ".gif",
   ".zip", ".rar", ".7z", ".tar", ".gz"]

/-- `allowed_file_type` from downloader.py:
`Path(filename).suffix.lower() in ALLOWED_EXTS`. -/
def allowed_file_type (exts : List String) (filename : String) : Bool :=
  exts.contains (strLower (splitExt filename).2.data)

/-- Contents of a file written by the program. -/
inductive FileContent
  | bytes (bs : List Nat)
  | text (s : String)
deriving Repr, DecidableEq

/-- One file on disk: directory path segments below the output root, name
within the directory, content. -/
structure FileRec where
  dir : List String
  name : String
  content : FileContent
deriving Repr, DecidableEq

/-- The filesystem subtree the program writes into. -/
abbrev Disk := List FileRec

/-- The file names present in one directory. -/
def listDir (disk : Disk) (dir : List String) : List String :=
  (disk.filter (fun f => f.dir == dir)).map (·.name)

/-- The `log` line of `download_binary`'s except-branch. -/
def failMsg (url msg : String) : String :=
  "    ❌ Failed to download: " ++ url ++ " -> " ++ msg

/-- `download_binary` from downloader.py.  Returns the written name (or
`none`), the updated disk and the emitted log lines.  Note the target file
is created at its final collision-safe path BEFORE the body is streamed:
a mid-stream error is caught (returning `none`) but leaves the partial
file on disk. -/
def download_binary (exts : List String) (net : String → GetResult) (disk : Disk)
    (url : String) (outDir : List String) (preferredName : Option String) :
    Option String × Disk × List String :=
  match net url with
  | .exc m => (none, disk, [failMsg url m])
  | .ok r =>
    if 400 ≤ r.status ∧ r.status < 600 then
      (none, disk, [failMsg url ("HTTPError " ++ Nat.repr r.status)])
    else
      let pname : Option String :=
        match preferredName with
        | some n => if n = "" then none else some n
        | none => none
      let fname := safe_name (pname.getD (infer_filename_from_headers url r "download"))
      if ¬ allowed_file_type exts fname then (none, disk, [])
      else
        let target := unique_path (listDir disk outDir) fname
        let content := (r.chunks.filter (fun c => !(c == ([] : List Nat)))).join
        let disk' := disk ++ [⟨outDir, target, .bytes content⟩]
        match r.streamErr with
        | some m => (none, disk', [failMsg url m])
        | none => (some target, disk', [])

/-- C3 counterexample: a transport error in the middle of the body is
caught and the fetch returns absent, but the partially written file
remains at its final path — the disk is NOT left unchanged, and the file
appeared at its final path before the body was fully received. -/
theorem download_binary_partial_file :
    download_binary [".pdf"] (fun _ => .ok ⟨200, none, [[1, 2]], some "connection reset"⟩)
        [] "https://h/dl/x.pdf" ["d"] (some "notes.pdf")
      = (none, [⟨["d"], "notes.pdf", .bytes [1, 2]⟩],
         [failMsg "https://h/dl/x.pdf" "connection reset"])
    ∧ ([⟨["d"], "notes.pdf", FileContent.bytes [1, 2]⟩] : Disk) ≠ ([] : Disk) := by
  refine ⟨by decide, ?_⟩
  intro h
  cases h

/-- C3 (amended): every transport failure is caught and yields absent
(the fetcher never raises); failures BEFORE the file is opened — a
connect error or an HTTP error status — leave the disk unchanged; a
mid-stream failure still yields absent but the partial file stays at its
final path; and a returned path implies the body stream completed. -/
theorem download_binary_amended (exts : List String) (net : String → GetResult)
    (disk : Disk) (url : String) (outDir : List String) (pn : Option String) :
    (∀ m, net url = .exc m →
      download_binary exts net disk url outDir pn = (none, disk, [failMsg url m]))
    ∧ (∀ r, net url = .ok r → 400 ≤ r.status → r.status < 600 →
        (download_binary exts net disk url outDir pn).1 = none
        ∧ (download_binary exts net disk url outDir pn).2.1 = disk)
    ∧ (∀ r, net url = .ok r → ∀ m, r.streamErr = some m →
        (download_binary exts net disk url outDir pn).1 = none)
    ∧ (∀ r, net url = .ok r → (download_binary exts net disk url outDir pn).1 ≠ none →
        r.streamErr = none ∧ ¬(400 ≤ r.status ∧ r.status < 600)) := by
  refine ⟨?_, ?_, ?_, ?_⟩
  · intro m h
    simp only [download_binary, h]
  · intro r h h4 h6
    simp only [download_binary, h]
    rw [if_pos (show 400 ≤ r.status ∧ r.status < 600 from ⟨h4, h6⟩)]
    exact ⟨rfl, rfl⟩
  · intro r h m hse
    simp only [download_binary, h, hse]
    by_cases hst : 400 ≤ r.status ∧ r.status < 600
    · rw [if_pos hst]
    · rw [if_neg hst]
      split
      · rfl
      · rfl
  · intro r h hne
    simp only [download_binary, h] at hne
    by_cases hst : 400 ≤ r.status ∧ r.status < 600
    · rw [if_pos hst] at hne
      exact absurd rfl hne
    · refine ⟨?_, hst⟩
      rw [if_neg hst] at hne
      cases hse : r.streamErr with
      | none => rfl
      | some m =>
        rw [hse] at hne
        refine absurd ?_ hne
        split
        · rfl
        · rfl

/-- C3 witness: the amended theorem applied to a connect failure (disk
unchanged, `none` returned) and to a successful fetch (returned path
implies the stream completed). -/
theorem download_binary_amended_witness :
    download_binary DEFAULT_EXTS (fun _ => .exc "timed out") [] "https://h/f.pdf" []
        (some "f.pdf")
      = (none, [], [failMsg "https://h/f.pdf" "timed out"])
    ∧ (Resp.mk 200 none [[7]] none).streamErr = none :=
  ⟨(download_binary_amended DEFAULT_EXTS (fun _ => .exc "timed out") [] "https://h/f.pdf"
      [] (some "f.pdf")).1 "timed out" rfl,
   ((download_binary_amended DEFAULT_EXTS (fun _ => .ok ⟨200, none, [[7]], none⟩) []
      "https://h/f.pdf" [] (some "f.pdf")).2.2.2 ⟨200, none, [[7]], none⟩ rfl
      (by decide)).1⟩

/-! ### CourseWalker: `download_canvas_courses` (downloader.py lines 11-286)

The Canvas API is an oracle `Env`.  The walker's mutable per-course state
(`downloaded_ids`, the three counters, the filesystem) is threaded
explicitly, and its observable behaviour — `log` lines, `progress_cb`
calls, and each successful recorded download — is an event trace.
`resolve_file_via_api` (lines 107-117) wraps one HTTP GET plus JSON field
selection in a `try/except` returning `(None, None)` on any failure; the
environment supplies that resulting pair per endpoint URL. -/

/-- A Python value as stored in the per-course dedup set.  A File item's
`content_id` arrives from the Canvas JSON as an integer, while an
identifier recovered from a page link by `extract_file_id` is a digit
string; in Python `42 != "42"`, so the two never compare equal. -/
inductive PyVal
  | pint (n : Nat)
  | pstr (s : String)
deriving Repr, DecidableEq

/-- f-string / `str()` rendering of such a value. -/
def pyValStr : PyVal → String
  | .pint n => Nat.repr n
  | .pstr s => s

/-- Python `a or b` for an optional/empty string. -/
def pyOr (a : Option String) (b : String) : String :=
  match a with
  | some s => if s = "" then b else s
  | none => b

/-- f-string rendering of an optional string (`None` prints as "None"). -/
def pyOptStr : Option String → String
  | none => "None"
  | some s => s

/-- Python truthiness of an optional string. -/
def truthyOptStr : Option String → Bool
  | none => false
  | some s => !(s == "")

/-- One module item.  `content_id` is the integer File payload;
`page_url` is the Page slug. -/
structure ModuleItem where
  itype : Option String
  title : Option String
  content_id : Option Nat
  page_url : Option String

/-- A fetched Page: title, body (may be null), and — BeautifulSoup not
being modelled — the element sequence its body parses to. -/
structure PageData where
  title : Option String
  body : Option String
  elems : List Elem

/-- A module: position and name (with the `getattr` defaults already
applied by the environment), and its item listing, which may raise when
the paginated list is realized. -/
structure ModuleData where
  position : Nat
  name : String
  items : Except String (List ModuleItem)

/-- A course as re-fetched inside the per-course try block. -/
structure CourseData where
  id : Nat
  name : Option String
  modules : Except String (List ModuleData)

/-- A course reference from the initial course list (only its id is used
inside the loop). -/
structure CourseRef where
  id : Nat

/-- The remote side: Canvas API and HTTP. -/
structure Env where
  get_course : Nat → Except String CourseData
  get_page : Nat → String → Except String PageData
  resolve : String → Option String × Option String
  net : String → GetResult

/-- Walker configuration: the raw API URL and the caller's extension set. -/
structure Cfg where
  api_url : String
  allowed_exts : List String

/-- `api_url.rstrip("/")`. -/
def Cfg.apiClean (c : Cfg) : String :=
  ⟨(c.api_url.data.reverse.dropWhile (· = '/')).reverse⟩

/-- `ALLOWED_EXTS = allowed_exts or DEFAULT_EXTS` (an empty set is falsy). -/
def Cfg.exts (c : Cfg) : List String :=
  if c.allowed_exts = [] then DEFAULT_EXTS else c.allowed_exts

/-- Observable events: a `log` line, a `progress_cb` call, or (as
instrumentation mirroring `downloaded_ids.add` plus the counter bump) a
successful download of a file identifier. -/
inductive Event
  | log (msg : String)
  | progress (done : Nat) (total : Nat) (msg : String)
  | downloaded (fid : PyVal) (path : String)
deriving Repr, DecidableEq

/-- The `(done, total)` pairs passed to the progress sink, in order. -/
def progressEvents (evs : List Event) : List (Nat × Nat) :=
  evs.filterMap fun e =>
    match e with
    | .progress d t _ => some (d, t)
    | _ => none

/-- The identifiers of the successful downloads in a trace, in order. -/
def downloadedIds (evs : List Event) : List PyVal :=
  evs.filterMap fun e =>
    match e with
    | .downloaded fid _ => some fid
    | _ => none

/-- The walker's per-course mutable state. -/
structure CState where
  ids : List PyVal
  files_downloaded : Nat
  pages_saved : Nat
  linked_files_downloaded : Nat
  disk : Disk
deriving Repr, DecidableEq

/-- The state update of `downloaded_ids.add(fid)` plus the counter bump
(`files_downloaded` for File items, `linked_files_downloaded` for page
links). -/
def recordSuccess (st : CState) (fid : PyVal) (linked : Bool) (disk' : Disk) : CState :=
  { st with
      ids := st.ids ++ [fid]
      files_downloaded := if linked then st.files_downloaded else st.files_downloaded + 1
      linked_files_downloaded :=
        if linked then st.linked_files_downloaded + 1 else st.linked_files_downloaded
      disk := disk' }

/-- The events of a successful download: the fetcher's log lines, the
recorded identifier, and the success log line. -/
def successEvents (logs : List String) (fid : PyVal) (path : String) (linked : Bool) :
    List Event :=
  logs.map Event.log
    ++ [.downloaded fid path, .log ((if linked then "    📎 " else "  📥 ") ++ path)]

/-- The shared resolve-check-fetch sequence of the File branch (lines
222-228) and the page-link branch (lines 253-259): resolve the identifier
through the API endpoint, require a truthy URL and display name whose
extension is allowed, fetch, and on success record the identifier in the
dedup set and bump the corresponding counter. -/
def attemptDownload (cfg : Cfg) (env : Env) (moduleDir : List String) (st : CState)
    (fid : PyVal) (linked : Bool) : CState × List Event :=
  let endpoint := cfg.apiClean ++ "/api/v1/files/" ++ pyValStr fid
  let bd := env.resolve endpoint
  if truthyOptStr bd.1 ∧ truthyOptStr bd.2 ∧ allowed_file_type cfg.exts (bd.2.getD "") then
    let dl := download_binary cfg.exts env.net st.disk (bd.1.getD "") moduleDir bd.2
    match dl.1 with
    | some path => (recordSuccess st fid linked dl.2.1, successEvents dl.2.2 fid path linked)
    | none => ({ st with disk := dl.2.1 }, dl.2.2.map Event.log)
  else (st, [])

/-- The `File` branch of the item loop (lines 218-229). -/
def processFileItem (cfg : Cfg) (env : Env) (moduleDir : List String) (st : CState)
    (item : ModuleItem) : CState × List Event :=
  match item.content_id with
  | none => (st, [])
  | some cid =>
    if cid = 0 ∨ PyVal.pint cid ∈ st.ids then (st, [])
    else attemptDownload cfg env moduleDir st (.pint cid) false

/-- One extracted page link (lines 251-259). -/
def processPageLink (cfg : Cfg) (env : Env) (moduleDir : List String) (st : CState)
    (link : String) : CState × List Event :=
  match extract_file_id link with
  | none => (st, [])
  | some fidStr =>
    if fidStr ≠ "" ∧ PyVal.pstr fidStr ∉ st.ids then
      attemptDownload cfg env moduleDir st (.pstr fidStr) true
    else (st, [])

/-- The loop over a page's extracted links (line 250). -/
def processLinks (cfg : Cfg) (env : Env) (moduleDir : List String) :
    CState → List String → CState × List Event
  | st, [] => (st, [])
  | st, link :: rest =>
    let r1 := processPageLink cfg env moduleDir st link
    let r2 := processLinks cfg env moduleDir r1.1 rest
    (r2.1, r1.2 ++ r2.2)

/-- The `Page` branch of the item loop (lines 232-262): fetch the page,
save its body as HTML under a collision-safe name, then fetch files
referenced from its body; a page fetch failure is caught and logged. -/
def processPageItem (cfg : Cfg) (env : Env) (courseId : Nat) (moduleDir : List String)
    (st : CState) (item : ModuleItem) (title : String) : CState × List Event :=
  match item.page_url with
  | none => (st, [])
  | some slug =>
    if slug = "" then (st, [])
    else
      match env.get_page courseId slug with
      | .error e => (st, [.log ("  ❌ Page '" ++ title ++ "': " ++ e)])
      | .ok page =>
        let ptitle := pyOr page.title (if title = "" then slug else title)
        let body := pyOr page.body ""
        let fname := safe_name ptitle ++ ".html"
        let target := unique_path (listDir st.disk moduleDir) fname
        let content := "<!-- Saved from /courses/" ++ Nat.repr courseId ++ "/pages/" ++ slug
          ++ " -->\n<!-- Title: " ++ ptitle ++ " -->\n" ++ body
        let st1 := { st with
          pages_saved := st.pages_saved + 1
          disk := st.disk ++ [⟨moduleDir, target, .text content⟩] }
        let base := cfg.apiClean ++ "/courses/" ++ Nat.repr courseId ++ "/pages/" ++ slug
        let elems := if body = "" then [] else page.elems
        let r := processLinks cfg env moduleDir st1 (extract_all_links_from_html elems base)
        (r.1, Event.log ("  📝 " ++ target) :: r.2)

/-- Item dispatch (lines 213-229): `File`, `Page`, or ignored. -/
def processItem (cfg : Cfg) (env : Env) (courseId : Nat) (moduleDir : List String)
    (st : CState) (item : ModuleItem) : CState × List Event :=
  let title := pyOr item.title (pyOr item.itype "Item")
  if item.itype == some "File" then processFileItem cfg env moduleDir st item
  else if item.itype == some "Page" then
    processPageItem cfg env courseId moduleDir st item title
  else (st, [])

/-- The loop over one module's items. -/
def processItems (cfg : Cfg) (env : Env) (courseId : Nat) (moduleDir : List String) :
    CState → List ModuleItem → CState × List Event
  | st, [] => (st, [])
  | st, it :: rest =>
    let r1 := processItem cfg env courseId moduleDir st it
    let r2 := processItems cfg env courseId moduleDir r1.1 rest
    (r2.1, r1.2 ++ r2.2)

/-- `f"{mpos:02d}"` for a natural number. -/
def pad2 (n : Nat) : String :=
  if (Nat.repr n).data.length < 2 then "0" ++ Nat.repr n else Nat.repr n

/-- One module (lines 207-262): build the module directory name, then run
the items; realizing the item listing may raise (third component). -/
def processModule (cfg : Cfg) (env : Env) (courseId : Nat) (courseDir : List String)
    (st : CState) (m : ModuleData) : CState × List Event × Option String :=
  let moduleDir := courseDir ++ [pad2 m.position ++ " - " ++ safe_name m.name]
  match m.items with
  | .error e => (st, [], some e)
  | .ok items =>
    let r := processItems cfg env courseId moduleDir st items
    (r.1, r.2, none)

/-- The module loop, stopping at the first uncaught exception. -/
def processModules (cfg : Cfg) (env : Env) (courseId : Nat) (courseDir : List String) :
    CState → List ModuleData → CState × List Event × Option String
  | st, [] => (st, [], none)
  | st, m :: rest =>
    let r1 := processModule cfg env courseId courseDir st m
    match r1.2.2 with
    | some e => (r1.1, r1.2.1, some e)
    | none =>
      let r2 := processModules cfg env courseId courseDir r1.1 rest
      (r2.1, r1.2.1 ++ r2.2.1, r2.2.2)

/-- Stable insertion of a module into a position-sorted list: an earlier
module goes before later modules with the same position. -/
def insertByPos (m : ModuleData) : List ModuleData → List ModuleData
  | [] => [m]
  | x :: xs => if m.position ≤ x.position then m :: x :: xs else x :: insertByPos m xs

/-- `modules.sort(key=lambda m: getattr(m, "position", 0))`: a stable
ascending sort by position. -/
def sortByPos : List ModuleData → List ModuleData
  | [] => []
  | m :: rest => insertByPos m (sortByPos rest)

/-- One per-course summary record (lines 264-272). -/
structure Summary where
  course_id : Nat
  course_name : Option String
  files_downloaded : Nat
  pages_saved : Nat
  linked_files_downloaded : Nat
deriving Repr, DecidableEq

/-- The `log` line of the per-course except-branch (line 280). -/
def skipMsg (cid : Nat) (e : String) : String :=
  "\n❌ Skipping course " ++ Nat.repr cid ++ ": " ++ e

/-- One course (lines 190-280): re-fetch the course, reset the dedup set
and counters, run the modules in position order; any uncaught exception
is logged with the course id and the course contributes no summary. -/
def processCourse (cfg : Cfg) (env : Env) (disk : Disk) (c : CourseRef) :
    Option Summary × Disk × List Event :=
  match env.get_course c.id with
  | .error e => (none, disk, [.log (skipMsg c.id e)])
  | .ok course =>
    let courseDir : List String :=
      [safe_name (pyOr course.name ("course_" ++ Nat.repr course.id))
        ++ " (" ++ Nat.repr course.id ++ ")"]
    let ev0 : List Event :=
      [.log ("\n=== " ++ Nat.repr course.id ++ " – " ++ pyOptStr course.name ++ " ===")]
    match course.modules with
    | .error e => (none, disk, ev0 ++ [.log (skipMsg c.id e)])
    | .ok mods =>
      let r := processModules cfg env course.id courseDir ⟨[], 0, 0, 0, disk⟩
        (sortByPos mods)
      match r.2.2 with
      | some e => (none, r.1.disk, ev0 ++ r.2.1 ++ [.log (skipMsg c.id e)])
      | none =>
        (some ⟨course.id, course.name, r.1.files_downloaded, r.1.pages_saved,
            r.1.linked_files_downloaded⟩,
         r.1.disk, ev0 ++ r.2.1)

/-- The course loop (lines 190-280): `done_courses` increments — and a
progress event fires — only after a course completes successfully. -/
def runCourses (cfg : Cfg) (env : Env) :
    Disk → Nat → Nat → List CourseRef → List Summary × Disk × List Event
  | disk, _, _, [] => ([], disk, [])
  | disk, done, total, c :: rest =>
    let r := processCourse cfg env disk c
    match r.1 with
    | some s =>
      let rr := runCourses cfg env r.2.1 (done + 1) total rest
      (s :: rr.1, rr.2.1,
       r.2.2 ++ [.progress (done + 1) total ("Finished " ++ pyOptStr s.course_name)]
         ++ rr.2.2)
    | none =>
      let rr := runCourses cfg env r.2.1 done total rest
      (rr.1, rr.2.1, r.2.2 ++ rr.2.2)

/-- `download_canvas_courses` from downloader.py over the modelled
environment, given the already-resolved course list: initial log and
progress events, the course loop, a final forced `(max(n,1), max(n,1))`
progress event, and the summary list as result. -/
def download_canvas_courses (cfg : Cfg) (env : Env) (courses : List CourseRef) :
    List Summary × Disk × List Event :=
  let n := courses.length
  let r := runCourses cfg env [] 0 (max n 1) courses
  (r.1, r.2.1,
   [Event.log ("Found " ++ Nat.repr n ++ " course(s)."),
    Event.progress 0 (max n 1) "Starting download..."]
     ++ r.2.2
     ++ [Event.progress (max n 1) (max n 1) "All courses finished"])

/-! ### Trace lemmas -/

@[simp] theorem progressEvents_nil : progressEvents [] = [] := rfl

@[simp] theorem progressEvents_cons_log (m : String) (evs : List Event) :
    progressEvents (Event.log m :: evs) = progressEvents evs := by
  simp [progressEvents, List.filterMap_cons]

@[simp] theorem progressEvents_cons_downloaded (f : PyVal) (p : String) (evs : List Event) :
    progressEvents (Event.downloaded f p :: evs) = progressEvents evs := by
  simp [progressEvents, List.filterMap_cons]

@[simp] theorem progressEvents_cons_progress (d t : Nat) (m : String) (evs : List Event) :
    progressEvents (Event.progress d t m :: evs) = (d, t) :: progressEvents evs := by
  simp [progressEvents, List.filterMap_cons]

@[simp] theorem progressEvents_append (a b : List Event) :
    progressEvents (a ++ b) = progressEvents a ++ progressEvents b := by
  simp [progressEvents, List.filterMap_append]

@[simp] theorem progressEvents_map_log (msgs : List String) :
    progressEvents (msgs.map Event.log) = [] := by
  induction msgs with
  | nil => rfl
  | cons m ms ih => simpa using ih

@[simp] theorem downloadedIds_nil : downloadedIds [] = [] := rfl

@[simp] theorem downloadedIds_cons_log (m : String) (evs : List Event) :
    downloadedIds (Event.log m :: evs) = downloadedIds evs := by
  simp [downloadedIds, List.filterMap_cons]

@[simp] theorem downloadedIds_cons_progress (d t : Nat) (m : String) (evs : List Event) :
    downloadedIds (Event.progress d t m :: evs) = downloadedIds evs := by
  simp [downloadedIds, List.filterMap_cons]

@[simp] theorem downloadedIds_cons_downloaded (f : PyVal) (p : String) (evs : List Event) :
    downloadedIds (Event.downloaded f p :: evs) = f :: downloadedIds evs := by
  simp [downloadedIds, List.filterMap_cons]

@[simp] theorem downloadedIds_append (a b : List Event) :
    downloadedIds (a ++ b) = downloadedIds a ++ downloadedIds b := by
  simp [downloadedIds, List.filterMap_append]

@[simp] theorem downloadedIds_map_log (msgs : List String) :
    downloadedIds (msgs.map Event.log) = [] := by
  induction msgs with
  | nil => rfl
  | cons m ms ih => simpa using ih

@[simp] theorem progressEvents_successEvents (logs : List String) (fid : PyVal)
    (path : String) (linked : Bool) :
    progressEvents (successEvents logs fid path linked) = [] := by
  simp [successEvents]

@[simp] theorem downloadedIds_successEvents (logs : List String) (fid : PyVal)
    (path : String) (linked : Bool) :
    downloadedIds (successEvents logs fid path linked) = [fid] := by
  simp [successEvents]

theorem progressEvents_attemptDownload (cfg : Cfg) (env : Env) (moduleDir : List String)
    (st : CState) (fid : PyVal) (linked : Bool) :
    progressEvents (attemptDownload cfg env moduleDir st fid linked).2 = [] := by
  simp only [attemptDownload]
  split
  · split <;> simp
  · simp

theorem progressEvents_processFileItem (cfg : Cfg) (env : Env) (moduleDir : List String)
    (st : CState) (item : ModuleItem) :
    progressEvents (processFileItem cfg env moduleDir st item).2 = [] := by
  simp only [processFileItem]
  split
  · simp
  · split
    · simp
    · exact progressEvents_attemptDownload ..

theorem progressEvents_processPageLink (cfg : Cfg) (env : Env) (moduleDir : List String)
    (st : CState) (link : String) :
    progressEvents (processPageLink cfg env moduleDir st link).2 = [] := by
  simp only [processPageLink]
  split
  · simp
  · split
    · exact progressEvents_attemptDownload ..
    · simp

theorem progressEvents_processLinks (cfg : Cfg) (env : Env) (moduleDir : List String) :
    ∀ (links : List String) (st : CState),
      progressEvents (processLinks cfg env moduleDir st links).2 = []
  | [], _ => rfl
  | link :: rest, st => by
    rw [processLinks]
    simp [progressEvents_processPageLink, progressEvents_processLinks cfg env moduleDir rest]

theorem progressEvents_processPageItem (cfg : Cfg) (env : Env) (courseId : Nat)
    (moduleDir : List String) (st : CState) (item : ModuleItem) (title : String) :
    progressEvents (processPageItem cfg env courseId moduleDir st item title).2 = [] := by
  simp only [processPageItem]
  split
  · simp
  · split
    · simp
    · split
      · simp
      · simp [progressEvents_processLinks]

theorem progressEvents_processItem (cfg : Cfg) (env : Env) (courseId : Nat)
    (moduleDir : List String) (st : CState) (item : ModuleItem) :
    progressEvents (processItem cfg env courseId moduleDir st item).2 = [] := by
  simp only [processItem]
  split
  · exact progressEvents_processFileItem ..
  · split
    · exact progressEvents_processPageItem ..
    · simp

theorem progressEvents_processItems (cfg : Cfg) (env : Env) (courseId : Nat)
    (moduleDir : List String) :
    ∀ (items : List ModuleItem) (st : CState),
      progressEvents (processItems cfg env courseId moduleDir st items).2 = []
  | [], _ => rfl
  | it :: rest, st => by
    rw [processItems]
    simp [progressEvents_processItem,
      progressEvents_processItems cfg env courseId moduleDir rest]

theorem progressEvents_processModule (cfg : Cfg) (env : Env) (courseId : Nat)
    (courseDir : List String) (st : CState) (m : ModuleData) :
    progressEvents (processModule cfg env courseId courseDir st m).2.1 = [] := by
  simp only [processModule]
  split
  · simp
  · simp [progressEvents_processItems]

theorem progressEvents_processModules (cfg : Cfg) (env : Env) (courseId : Nat)
    (courseDir : List String) :
    ∀ (mods : List ModuleData) (st : CState),
      progressEvents (processModules cfg env courseId courseDir st mods).2.1 = []
  | [], _ => rfl
  | m :: rest, st => by
    rw [processModules]
    split
    · simpa using progressEvents_processModule cfg env courseId courseDir st m
    · simp [progressEvents_processModule,
        progressEvents_processModules cfg env courseId courseDir rest]

theorem progressEvents_processCourse (cfg : Cfg) (env : Env) (disk : Disk)
    (c : CourseRef) : progressEvents (processCourse cfg env disk c).2.2 = [] := by
  simp only [processCourse]
  split
  · simp
  · split
    · simp
    · split
      · simp [progressEvents_processModules]
      · simp [progressEvents_processModules]

theorem runCourses_progress (cfg : Cfg) (env : Env) :
    ∀ (courses : List CourseRef) (disk : Disk) (done total : Nat),
      progressEvents (runCourses cfg env disk done total courses).2.2
        = (List.range' (done + 1) (runCourses cfg env disk done total courses).1.length).map
            (fun i => (i, total))
  | [], disk, done, total => by simp [runCourses]
  | c :: rest, disk, done, total => by
    rw [runCourses]
    cases hproc : (processCourse cfg env disk c).1 with
    | some s =>
      simp only [hproc]
      rw [progressEvents_append, progressEvents_append, progressEvents_processCourse]
      simp only [progressEvents_cons_progress, progressEvents_nil, List.nil_append,
        List.length_cons]
      rw [runCourses_progress cfg env rest _ (done + 1) total, List.range'_succ]
      rfl
    | none =>
      simp only [hproc]
      rw [progressEvents_append, progressEvents_processCourse, List.nil_append]
      exact runCourses_progress cfg env rest _ done total

/-- A test environment: course 2 raises while listing its modules; every
other course succeeds with an empty module list. -/
def envSkip2 : Env :=
  { get_course := fun cid =>
      if cid = 2 then .ok ⟨2, some "Beta", .error "boom"⟩
      else .ok ⟨cid, some ("C" ++ Nat.repr cid), .ok []⟩
    get_page := fun _ _ => .error "no pages"
    resolve := fun _ => (none, none)
    net := fun _ => .exc "net down" }

/-- C2 counterexample: the progress done-counts are NOT `0, 1, …, N`.
With a single trivially succeeding course the emitted pairs are
`[(0,1), (1,1), (1,1)]` — the final forced event duplicates `N` — and
with two failing courses they are `[(0,2), (2,2)]` — `done_courses` is
not incremented for a course that fails, yet the final event jumps to
`N`. -/
theorem progress_not_exact_range :
    progressEvents (download_canvas_courses ⟨"https://h", []⟩ envSkip2 [⟨1⟩]).2.2
      = [(0, 1), (1, 1), (1, 1)]
    ∧ ([(0, 1), (1, 1), (1, 1)] : List (Nat × Nat)) ≠ [(0, 1), (1, 1)]
    ∧ progressEvents (download_canvas_courses ⟨"https://h", []⟩ envSkip2 [⟨2⟩, ⟨2⟩]).2.2
      = [(0, 2), (2, 2)]
    ∧ ([(0, 2), (2, 2)] : List (Nat × Nat)) ≠ [(0, 2), (1, 2), (2, 2)] := by
  refine ⟨by decide, by decide, by decide, by decide⟩

/-- C2 (amended): for a run over a course list of length `N` of which `S`
complete successfully (`S` = the number of summary records returned), the
progress sink receives exactly the pairs
`(0, T), (1, T), …, (S, T), (T, T)` in that order, where `T = max N 1`:
`total` is `max N 1` (not `N`) throughout, `done` increments only after a
SUCCESSFUL course, and a final `(T, T)` event is always emitted. -/
theorem progress_events_amended (cfg : Cfg) (env : Env) (courses : List CourseRef) :
    progressEvents (download_canvas_courses cfg env courses).2.2
      = ((List.range ((download_canvas_courses cfg env courses).1.length + 1)).map
          (fun i => (i, max courses.length 1)))
        ++ [(max courses.length 1, max courses.length 1)] := by
  simp only [download_canvas_courses, List.cons_append, List.append_assoc,
    List.singleton_append, List.nil_append, progressEvents_cons_log,
    progressEvents_cons_progress, progressEvents_append, progressEvents_nil]
  rw [runCourses_progress]
  rw [List.range_eq_range', List.range'_succ 0 _ 1]
  simp

/-- C5: course-level failure isolation.  Generally: a failure re-fetching
the course yields no summary, leaves the disk unchanged and logs the
skip line with the course id; a failure listing the course's modules
likewise.  Concretely, for 3 courses where course 2 raises during module
listing, the returned summary list has exactly the 2 entries for courses
1 and 3 and the log contains exactly one skip line naming course 2. -/
theorem course_failure_isolation :
    (∀ (cfg : Cfg) (env : Env) (disk : Disk) (c : CourseRef) (e : String),
        env.get_course c.id = .error e →
        processCourse cfg env disk c = (none, disk, [.log (skipMsg c.id e)]))
    ∧ (∀ (cfg : Cfg) (env : Env) (disk : Disk) (c : CourseRef) (course : CourseData)
        (e : String), env.get_course c.id = .ok course → course.modules = .error e →
        (processCourse cfg env disk c).1 = none
        ∧ (processCourse cfg env disk c).2.1 = disk
        ∧ Event.log (skipMsg c.id e) ∈ (processCourse cfg env disk c).2.2)
    ∧ (download_canvas_courses ⟨"https://h", []⟩ envSkip2 [⟨1⟩, ⟨2⟩, ⟨3⟩]).1.map
        Summary.course_id = [1, 3]
    ∧ (download_canvas_courses ⟨"https://h", []⟩ envSkip2 [⟨1⟩, ⟨2⟩, ⟨3⟩]).1.length = 2
    ∧ ((download_canvas_courses ⟨"https://h", []⟩ envSkip2 [⟨1⟩, ⟨2⟩, ⟨3⟩]).2.2.filter
        (fun ev => ev == Event.log (skipMsg 2 "boom"))).length = 1 := by
  refine ⟨?_, ?_, by decide, by decide, by decide⟩
  · intro cfg env disk c e h
    simp [processCourse, h]
  · intro cfg env disk c course e h1 h2
    simp [processCourse, h1, h2]

/-- C5 witness: the general modules-failure part applied at the concrete
environment where course 2's module listing raises `"boom"`. -/
theorem course_failure_isolation_witness :
    (processCourse ⟨"https://h", []⟩ envSkip2 [] ⟨2⟩).1 = none
    ∧ (processCourse ⟨"https://h", []⟩ envSkip2 [] ⟨2⟩).2.1 = []
    ∧ Event.log (skipMsg 2 "boom")
        ∈ (processCourse ⟨"https://h", []⟩ envSkip2 [] ⟨2⟩).2.2 :=
  course_failure_isolation.2.1 ⟨"https://h", []⟩ envSkip2 [] ⟨2⟩
    ⟨2, some "Beta", .error "boom"⟩ "boom" rfl rfl

/-- Configuration for the dedup-bug scenario: a Canvas base URL and a
pdf-only allow-list. -/
def cfg1 : Cfg := ⟨"https://canvas.example.edu/", [".pdf"]⟩

/-- Environment for the dedup-bug scenario: one course whose single
module has a File item with integer `content_id` 42 and a Page whose
body links `/files/42`; the API resolves identifier 42 to `slides.pdf`
and the download succeeds. -/
def env1 : Env :=
  { get_course := fun cid => .ok ⟨cid, some "Alpha", .ok [⟨3, "Week 3", .ok
      [⟨some "File", some "Slides", some 42, none⟩,
       ⟨some "Page", some "Home", none, some "home"⟩]⟩]⟩
    get_page := fun _ _ => .ok ⟨some "Home", some "<a href=\"/files/42\">x</a>",
      [⟨"a", [("href", "/files/42")]⟩]⟩
    resolve := fun ep =>
      if ep = "https://canvas.example.edu/api/v1/files/42"
      then (some "https://canvas.example.edu/dl/42", some "slides.pdf") else (none, none)
    net := fun _ => .ok ⟨200, none, [[9, 9]], none⟩ }

/-- C1, evaluated at the failing input: within ONE course, identifier 42
is downloaded TWICE — once via the File item (integer `content_id` 42)
and once via the page link (string "42") — because Python's
`42 != "42"` makes the two ids distinct members of `downloaded_ids`
(annotated `set[str]` but receiving the integer).  The course directory
ends up with both `slides.pdf` and `slides (1).pdf`. -/
theorem double_download_same_identifier :
    downloadedIds (download_canvas_courses cfg1 env1 [⟨1⟩]).2.2
      = [.pint 42, .pstr "42"]
    ∧ pyValStr (.pint 42) = "42"
    ∧ pyValStr (.pstr "42") = "42"
    ∧ (download_canvas_courses cfg1 env1 [⟨1⟩]).2.1.map FileRec.name
      = ["slides.pdf", "Home.html", "slides (1).pdf"]
    ∧ (download_canvas_courses cfg1 env1 [⟨1⟩]).1.map Summary.files_downloaded = [1]
    ∧ (download_canvas_courses cfg1 env1 [⟨1⟩]).1.map Summary.linked_files_downloaded
      = [1] := by
  refine ⟨by decide, rfl, rfl, by decide, by decide, by decide⟩

/-- Either the attempt succeeds — one download event for `fid`, which is
appended to the dedup set — or it records nothing and leaves the dedup
set and all three counters unchanged. -/
theorem attemptDownload_cases (cfg : Cfg) (env : Env) (moduleDir : List String)
    (st : CState) (fid : PyVal) (linked : Bool) :
    (downloadedIds (attemptDownload cfg env moduleDir st fid linked).2 = [fid]
      ∧ (attemptDownload cfg env moduleDir st fid linked).1.ids = st.ids ++ [fid])
    ∨ (downloadedIds (attemptDownload cfg env moduleDir st fid linked).2 = []
      ∧ (attemptDownload cfg env moduleDir st fid linked).1.ids = st.ids
      ∧ (attemptDownload cfg env moduleDir st fid linked).1.files_downloaded
          = st.files_downloaded
      ∧ (attemptDownload cfg env moduleDir st fid linked).1.pages_saved = st.pages_saved
      ∧ (attemptDownload cfg env moduleDir st fid linked).1.linked_files_downloaded
          = st.linked_files_downloaded) := by
  simp only [attemptDownload]
  split
  · split
    · exact Or.inl ⟨by simp, by simp [recordSuccess]⟩
    · exact Or.inr ⟨by simp, rfl, rfl, rfl, rfl⟩
  · exact Or.inr ⟨rfl, rfl, rfl, rfl, rfl⟩

/-- C10: a File item or extracted page link whose processing performs no
successful download leaves the per-course dedup set and all three
counters exactly as they were, so a later reference to the same
identifier is checked against an unchanged set and attempted again. -/
theorem failed_download_leaves_state (cfg : Cfg) (env : Env) (moduleDir : List String)
    (st : CState) (item : ModuleItem) (link : String) :
    (downloadedIds (processFileItem cfg env moduleDir st item).2 = [] →
      (processFileItem cfg env moduleDir st item).1.ids = st.ids
      ∧ (processFileItem cfg env moduleDir st item).1.files_downloaded
          = st.files_downloaded
      ∧ (processFileItem cfg env moduleDir st item).1.pages_saved = st.pages_saved
      ∧ (processFileItem cfg env moduleDir st item).1.linked_files_downloaded
          = st.linked_files_downloaded)
    ∧ (downloadedIds (processPageLink cfg env moduleDir st link).2 = [] →
      (processPageLink cfg env moduleDir st link).1.ids = st.ids
      ∧ (processPageLink cfg env moduleDir st link).1.files_downloaded
          = st.files_downloaded
      ∧ (processPageLink cfg env moduleDir st link).1.pages_saved = st.pages_saved
      ∧ (processPageLink cfg env moduleDir st link).1.linked_files_downloaded
          = st.linked_files_downloaded) := by
  constructor
  · intro h
    simp only [processFileItem] at h ⊢
    cases hcid : item.content_id with
    | none => simp [hcid]
    | some cid =>
      simp only [hcid] at h ⊢
      by_cases hskip : cid = 0 ∨ PyVal.pint cid ∈ st.ids
      · rw [if_pos hskip]
        exact ⟨rfl, rfl, rfl, rfl⟩
      · rw [if_neg hskip]
        rw [if_neg hskip] at h
        rcases attemptDownload_cases cfg env moduleDir st (.pint cid) false with
          ⟨hd, -⟩ | ⟨-, h2, h3, h4, h5⟩
        · rw [hd] at h; cases h
        · exact ⟨h2, h3, h4, h5⟩
  · intro h
    simp only [processPageLink] at h ⊢
    cases hfid : extract_file_id link with
    | none => simp [hfid]
    | some fidStr =>
      simp only [hfid] at h ⊢
      by_cases hgo : fidStr ≠ "" ∧ PyVal.pstr fidStr ∉ st.ids
      · rw [if_pos hgo]
        rw [if_pos hgo] at h
        rcases attemptDownload_cases cfg env moduleDir st (.pstr fidStr) true with
          ⟨hd, -⟩ | ⟨-, h2, h3, h4, h5⟩
        · rw [hd] at h; cases h
        · exact ⟨h2, h3, h4, h5⟩
      · rw [if_neg hgo]
        exact ⟨rfl, rfl, rfl, rfl⟩

/-- C10 witness: with an environment whose metadata resolution fails, a
File item referencing identifier 7 and a page link `/files/7` download
nothing and leave the dedup set and counters untouched. -/
theorem failed_download_leaves_state_witness :
    downloadedIds (processFileItem ⟨"https://h", []⟩ envSkip2 ["01 - M"]
        ⟨[], 0, 0, 0, []⟩ ⟨some "File", some "T", some 7, none⟩).2 = []
    ∧ (processFileItem ⟨"https://h", []⟩ envSkip2 ["01 - M"]
        ⟨[], 0, 0, 0, []⟩ ⟨some "File", some "T", some 7, none⟩).1.ids = []
    ∧ downloadedIds (processPageLink ⟨"https://h", []⟩ envSkip2 ["01 - M"]
        ⟨[], 0, 0, 0, []⟩ "https://h/files/7").2 = []
    ∧ (processPageLink ⟨"https://h", []⟩ envSkip2 ["01 - M"]
        ⟨[], 0, 0, 0, []⟩ "https://h/files/7").1.ids = [] :=
  ⟨by decide,
   ((failed_download_leaves_state ⟨"https://h", []⟩ envSkip2 ["01 - M"]
      ⟨[], 0, 0, 0, []⟩ ⟨some "File", some "T", some 7, none⟩ "https://h/files/7").1
      (by decide)).1,
   by decide,
   ((failed_download_leaves_state ⟨"https://h", []⟩ envSkip2 ["01 - M"]
      ⟨[], 0, 0, 0, []⟩ ⟨some "File", some "T", some 7, none⟩ "https://h/files/7").2
      (by decide)).1⟩

end CanvasDL
